import Mathlib

/-!
Verification of the meeting-assistant core: the SQLite-backed record store
(`database.py`), the summarization pipeline (`summarizer.py`) and the
orchestrator (`app.py:_process_audio`), shallowly embedded in Lean.
Python strings are modelled as lists of unicode scalar values
(`List Char`); the SQLite table is modelled as a list of rows plus the
AUTOINCREMENT counter; external services (Whisper, the chat endpoint) are
modelled as oracle parameters, and the chat requests each operation issues
are returned explicitly as a trace.
-/

/-- Python strings, modelled as lists of unicode scalar values. -/
abbrev Str := List Char

/-! ## Python string primitives used by the sources -/

/-- The ASCII whitespace characters recognised by Python's `str.split()` and
`str.strip()` (the unicode extras are irrelevant to the repository's data). -/
def pyWs (c : Char) : Bool :=
  c = ' ' || c = '\t' || c = '\n' || c = '\r' || c.toNat = 11 || c.toNat = 12

/-- Helper for `pySplitWs`: accumulates the current word (reversed). -/
def splitWsAux : Str → Str → List Str
  | [], acc => if acc = [] then [] else [acc.reverse]
  | c :: rest, acc =>
    if pyWs c then
      if acc = [] then splitWsAux rest []
      else acc.reverse :: splitWsAux rest []
    else splitWsAux rest (c :: acc)

/-- Python `str.split()` with no argument: split on runs of whitespace,
dropping empty pieces. -/
def pySplitWs (s : Str) : List Str := splitWsAux s []

/-- Python `str.strip()`: remove leading and trailing whitespace. -/
def pyStrip (s : Str) : Str :=
  ((s.dropWhile pyWs).reverse.dropWhile pyWs).reverse

/-- Python `str.split(sep)` for a single-character separator (keeps empty
pieces), as used by `response.split("\n")` in `_parse_json_list`. -/
def pySplitOn (sep : Char) (s : Str) : List Str := List.splitOn sep s

/-- Fuelled worker for `pyReplace` (left-to-right, non-overlapping
replacement); fuel at least the input length is always enough because each
step consumes at least one character of the input. -/
def replaceAllF : Nat → Str → Str → Str → Str
  | 0, _, _, l => l
  | _ + 1, _, _, [] => []
  | fuel + 1, pat, repl, c :: rest =>
    if pat ≠ [] ∧ pat.isPrefixOf (c :: rest) then
      repl ++ replaceAllF fuel pat repl ((c :: rest).drop pat.length)
    else c :: replaceAllF fuel pat repl rest

/-- Python `str.replace(pat, repl)` for a non-empty pattern (the sources
only replace non-empty literals). -/
def pyReplace (s pat repl : Str) : Str := replaceAllF s.length pat repl s

/-- Python `str.find(c)` for a single character: index of first occurrence. -/
def pyFind (c : Char) (s : Str) : Option Nat := List.findIdx? (fun x => x = c) s

/-- Python `str.rfind(c)` for a single character: index of last occurrence. -/
def pyRFind (c : Char) (s : Str) : Option Nat :=
  (List.findIdx? (fun x => x = c) s.reverse).map (fun i => s.length - 1 - i)

/-! ## The JSON fragment used by the repository

`database.py` stores `key_points` and `action_items` with
`json.dumps : list[str] -> str` and reads them back with `json.loads`;
`summarizer.py` decodes model output expected to be a JSON array of
strings.  We model exactly this fragment: the encoder reproduces
`json.dumps` (default `ensure_ascii=True`, default separators) and the
decoder reproduces `json.loads` restricted to arrays of strings (no other
JSON top-level value is a `list` of `str`, so inputs outside the fragment
count as decode failures). -/

/-- Lowercase hex digit for a nibble, as emitted by Python's
`json` encoder in `\uXXXX` escapes. -/
def hexDigit (m : Nat) : Char :=
  if m < 10 then Char.ofNat (48 + m) else Char.ofNat (87 + m)

/-- The four lowercase hex digits of a value below 0x10000. -/
def hex4 (n : Nat) : Str :=
  [hexDigit (n / 4096 % 16), hexDigit (n / 256 % 16),
   hexDigit (n / 16 % 16), hexDigit (n % 16)]

/-- Value of a hex digit character (JSON accepts both cases). -/
def hexVal (c : Char) : Option Nat :=
  if 48 ≤ c.toNat ∧ c.toNat ≤ 57 then some (c.toNat - 48)
  else if 97 ≤ c.toNat ∧ c.toNat ≤ 102 then some (c.toNat - 87)
  else if 65 ≤ c.toNat ∧ c.toNat ≤ 70 then some (c.toNat - 55)
  else none

/-- How Python's `json.dumps` (default `ensure_ascii=True`) escapes one
character inside a string literal: `\\`, `\"`, the named control escapes,
printable ASCII verbatim, `\uXXXX` for other BMP characters and a
surrogate pair for astral characters. -/
def escChar (c : Char) : Str :=
  if c = '\\' then ['\\', '\\']
  else if c = '"' then ['\\', '"']
  else if c.toNat = 8 then ['\\', 'b']
  else if c.toNat = 9 then ['\\', 't']
  else if c.toNat = 10 then ['\\', 'n']
  else if c.toNat = 12 then ['\\', 'f']
  else if c.toNat = 13 then ['\\', 'r']
  else if 32 ≤ c.toNat ∧ c.toNat ≤ 126 then [c]
  else if c.toNat < 65536 then '\\' :: 'u' :: hex4 c.toNat
  else
    '\\' :: 'u' :: hex4 (55296 + (c.toNat - 65536) / 1024) ++
      '\\' :: 'u' :: hex4 (56320 + (c.toNat - 65536) % 1024)

/-- Python `json.dumps` of a single string. -/
def encStr (s : Str) : Str := '"' :: (s.map escChar).flatten ++ ['"']

/-- The `", " ++ element` encoding of the tail elements of a dumped list
(Python's default item separator is a comma followed by a space). -/
def encTail (l : List Str) : Str :=
  (l.map (fun s => ',' :: ' ' :: encStr s)).flatten

/-- Python `json.dumps` of a list of strings (default separators). -/
def jsonDumpsList : List Str → Str
  | [] => ['[', ']']
  | s :: ss => '[' :: (encStr s ++ encTail ss) ++ [']']

/-- JSON whitespace (accepted between tokens by `json.loads`). -/
def jsonWs (c : Char) : Bool :=
  c = ' ' || c = '\t' || c = '\n' || c = '\r'

/-- Skip JSON whitespace. -/
def skipWs (s : Str) : Str := s.dropWhile jsonWs

/-- The single-character JSON string escapes (everything except `\uXXXX`). -/
def escUnmap (e : Char) : Option Char :=
  if e = '"' then some '"'
  else if e = '\\' then some '\\'
  else if e = '/' then some '/'
  else if e = 'b' then some (Char.ofNat 8)
  else if e = 'f' then some (Char.ofNat 12)
  else if e = 'n' then some '\n'
  else if e = 'r' then some '\r'
  else if e = 't' then some '\t'
  else none

/-- Parse the body of a JSON string literal (the opening quote already
consumed), returning the decoded string and the remaining input.  Follows
`json.loads` in strict mode: raw control characters are rejected, `\uXXXX`
escapes are decoded, and surrogate pairs are recombined (unpaired
surrogates fall outside the scalar-value model and are rejected). -/
def parseStrBody : Str → Option (Str × Str)
  | [] => none
  | '"' :: rest => some ([], rest)
  | '\\' :: 'u' :: h1 :: h2 :: h3 :: h4 :: rest3 =>
    match hexVal h1, hexVal h2, hexVal h3, hexVal h4 with
    | some a, some b, some k, some d =>
      if 55296 ≤ a * 4096 + b * 256 + k * 16 + d ∧
          a * 4096 + b * 256 + k * 16 + d < 56320 then
        match rest3 with
        | '\\' :: 'u' :: g1 :: g2 :: g3 :: g4 :: rest4 =>
          match hexVal g1, hexVal g2, hexVal g3, hexVal g4 with
          | some a2, some b2, some k2, some d2 =>
            if 56320 ≤ a2 * 4096 + b2 * 256 + k2 * 16 + d2 ∧
                a2 * 4096 + b2 * 256 + k2 * 16 + d2 < 57344 then
              (parseStrBody rest4).map (fun p =>
                (Char.ofNat (65536 +
                  (a * 4096 + b * 256 + k * 16 + d - 55296) * 1024 +
                  (a2 * 4096 + b2 * 256 + k2 * 16 + d2 - 56320)) :: p.1,
                 p.2))
            else none
          | _, _, _, _ => none
        | _ => none
      else if 56320 ≤ a * 4096 + b * 256 + k * 16 + d ∧
          a * 4096 + b * 256 + k * 16 + d < 57344 then none
      else
        (parseStrBody rest3).map (fun p =>
          (Char.ofNat (a * 4096 + b * 256 + k * 16 + d) :: p.1, p.2))
    | _, _, _, _ => none
  | '\\' :: 'u' :: _ => none
  | '\\' :: e :: rest2 =>
    match escUnmap e with
    | some c2 => (parseStrBody rest2).map (fun p => (c2 :: p.1, p.2))
    | none => none
  | '\\' :: [] => none
  | c :: rest =>
    if c.toNat < 32 then none
    else (parseStrBody rest).map (fun p => (c :: p.1, p.2))

/-- Parse the continuation of a JSON array of strings: at a position where
(after whitespace) either `]` closes the array or `,` introduces the next
string element.  Fuelled; each step consumes at least the comma, so fuel
exceeding the input length suffices. -/
def parseTail : Nat → Str → Option (List Str × Str)
  | 0, _ => none
  | fuel + 1, l =>
    match skipWs l with
    | ']' :: rest => some ([], rest)
    | ',' :: rest =>
      match skipWs rest with
      | '"' :: rest2 =>
        match parseStrBody rest2 with
        | none => none
        | some (s, rest3) =>
          match parseTail fuel rest3 with
          | some (ss, rest4) => some (s :: ss, rest4)
          | none => none
      | _ => none
    | _ => none

/-- Parse a JSON array of strings, the opening `[` already consumed. -/
def parseArr (fuel : Nat) (l : Str) : Option (List Str × Str) :=
  match skipWs l with
  | ']' :: rest => some ([], rest)
  | '"' :: rest =>
    match parseStrBody rest with
    | none => none
    | some (s, rest2) =>
      match parseTail fuel rest2 with
      | some (ss, rest3) => some (s :: ss, rest3)
      | none => none
  | _ => none

/-- Python `json.loads`, restricted to the fragment stored in the
database's list columns: a JSON array of strings.  Those columns are
always `json.dumps` output of a `list[str]`, and on that fragment this
decoder coincides exactly with `json.loads` (the general decoder used by
the summarizer's response parsing is `jsonLoads` below).  Trailing
non-whitespace input is rejected, as `json.loads` does. -/
def jsonLoadsStrList (l : Str) : Option (List Str) :=
  match skipWs l with
  | '[' :: rest =>
    match parseArr (rest.length + 1) rest with
    | some (ss, rest2) => if skipWs rest2 = [] then some ss else none
    | none => none
  | _ => none

/-! ## General `json.loads` (the decoder `_parse_json_list` actually calls)

`json.loads` decodes any JSON value, not just arrays of strings; a Python
value of any of these shapes can come back.  Numbers are represented by
their lexeme (Python converts them to `int`/`float`; no claim inspects a
numeric value, and floats are not representable here), and objects by
their key/value pairs in parse order (Python builds a `dict`, keeping the
last duplicate key; no claim compares objects).  The non-standard
constants `NaN`/`Infinity`/`-Infinity`, which `json.loads` accepts by
default, are likewise kept as number lexemes. -/

/-- A decoded Python value as returned by `json.loads`. -/
inductive PyVal where
  | pnull
  | pbool (b : Bool)
  | pnum (lexeme : Str)
  | pstr (s : Str)
  | parr (elems : List PyVal)
  | pobj (entries : List (Str × PyVal))

/-- The integer part of a JSON number: `0`, or a nonzero digit followed by
digits (the `(-?(?:0|[1-9]\d*))` group of Python's number regex, sign
handled by the caller). -/
def parseIntPart : Str → Option (Str × Str)
  | '0' :: rest => some (['0'], rest)
  | c :: rest =>
      if c.isDigit then
        some (c :: rest.takeWhile Char.isDigit, rest.dropWhile Char.isDigit)
      else none
  | [] => none

/-- The optional fraction part `(\.\d+)?`: a dot not followed by a digit
is left in the input, ending the number at the integer part. -/
def parseFrac : Str → Str × Str
  | '.' :: rest =>
      match rest.takeWhile Char.isDigit with
      | [] => ([], '.' :: rest)
      | ds => ('.' :: ds, rest.dropWhile Char.isDigit)
  | l => ([], l)

/-- The optional exponent part `([eE][-+]?\d+)?`; an exponent marker not
followed by digits is left in the input. -/
def parseExp : Str → Str × Str
  | e :: rest =>
      if e = 'e' ∨ e = 'E' then
        match rest with
        | s :: rest2 =>
            if s = '+' ∨ s = '-' then
              match rest2.takeWhile Char.isDigit with
              | [] => ([], e :: s :: rest2)
              | ds => (e :: s :: ds, rest2.dropWhile Char.isDigit)
            else
              match rest.takeWhile Char.isDigit with
              | [] => ([], e :: rest)
              | ds => (e :: ds, rest.dropWhile Char.isDigit)
        | [] => ([], [e])
      else ([], e :: rest)
  | [] => ([], [])

/-- A JSON number at the head of the input, returned as its lexeme. -/
def parseNumber (l : Str) : Option (Str × Str) :=
  match l with
  | '-' :: rest =>
    match parseIntPart rest with
    | none => none
    | some (ip, rest2) =>
      match parseFrac rest2 with
      | (fr, rest3) =>
        match parseExp rest3 with
        | (ex, rest4) => some ('-' :: (ip ++ fr ++ ex), rest4)
  | _ =>
    match parseIntPart l with
    | none => none
    | some (ip, rest2) =>
      match parseFrac rest2 with
      | (fr, rest3) =>
        match parseExp rest3 with
        | (ex, rest4) => some (ip ++ fr ++ ex, rest4)

mutual

/-- One JSON value at the head of the input (leading whitespace skipped),
following Python's scanner: string, object, array, the literals
`null`/`true`/`false`, a number, or the accepted constants
`NaN`/`Infinity`/`-Infinity`.  Fuelled; the nesting depth is bounded by
the input length, so `2 * length + 2` fuel always suffices. -/
def parseVal : Nat → Str → Option (PyVal × Str)
  | 0, _ => none
  | fuel + 1, l =>
    match skipWs l with
    | '"' :: rest =>
      match parseStrBody rest with
      | some (s, rest2) => some (.pstr s, rest2)
      | none => none
    | '{' :: rest => parseObjItems fuel rest
    | '[' :: rest => parseArrItems fuel rest
    | 'n' :: 'u' :: 'l' :: 'l' :: rest => some (.pnull, rest)
    | 't' :: 'r' :: 'u' :: 'e' :: rest => some (.pbool true, rest)
    | 'f' :: 'a' :: 'l' :: 's' :: 'e' :: rest => some (.pbool false, rest)
    | 'N' :: 'a' :: 'N' :: rest => some (.pnum (("NaN").data), rest)
    | 'I' :: 'n' :: 'f' :: 'i' :: 'n' :: 'i' :: 't' :: 'y' :: rest =>
      some (.pnum (("Infinity").data), rest)
    | '-' :: 'I' :: 'n' :: 'f' :: 'i' :: 'n' :: 'i' :: 't' :: 'y' :: rest =>
      some (.pnum (("-Infinity").data), rest)
    | l2 => (parseNumber l2).map (fun p => (.pnum p.1, p.2))

/-- A JSON array body, the `[` already consumed: empty, or a first value
followed by `parseArrMore`. -/
def parseArrItems : Nat → Str → Option (PyVal × Str)
  | 0, _ => none
  | fuel + 1, l =>
    match skipWs l with
    | ']' :: rest => some (.parr [], rest)
    | _ =>
      match parseVal fuel l with
      | none => none
      | some (v, rest) =>
        match parseArrMore fuel rest with
        | some (vs, rest2) => some (.parr (v :: vs), rest2)
        | none => none

/-- The continuation of a JSON array: `]` closes it, `,` introduces the
next value (no trailing comma, as in `json.loads`). -/
def parseArrMore : Nat → Str → Option (List PyVal × Str)
  | 0, _ => none
  | fuel + 1, l =>
    match skipWs l with
    | ']' :: rest => some ([], rest)
    | ',' :: rest =>
      match parseVal fuel rest with
      | none => none
      | some (v, rest2) =>
        match parseArrMore fuel rest2 with
        | some (vs, rest3) => some (v :: vs, rest3)
        | none => none
    | _ => none

/-- A JSON object body, the `{` already consumed: empty, or a first
string key, colon and value followed by `parseObjMore`. -/
def parseObjItems : Nat → Str → Option (PyVal × Str)
  | 0, _ => none
  | fuel + 1, l =>
    match skipWs l with
    | '}' :: rest => some (.pobj [], rest)
    | '"' :: rest =>
      match parseStrBody rest with
      | none => none
      | some (key, rest2) =>
        match skipWs rest2 with
        | ':' :: rest3 =>
          match parseVal fuel rest3 with
          | none => none
          | some (v, rest4) =>
            match parseObjMore fuel rest4 with
            | some (kvs, rest5) => some (.pobj ((key, v) :: kvs), rest5)
            | none => none
        | _ => none
    | _ => none

/-- The continuation of a JSON object: `}` closes it, `,` introduces the
next key/value pair (no trailing comma). -/
def parseObjMore : Nat → Str → Option (List (Str × PyVal) × Str)
  | 0, _ => none
  | fuel + 1, l =>
    match skipWs l with
    | '}' :: rest => some ([], rest)
    | ',' :: rest =>
      match skipWs rest with
      | '"' :: rest2 =>
        match parseStrBody rest2 with
        | none => none
        | some (key, rest3) =>
          match skipWs rest3 with
          | ':' :: rest4 =>
            match parseVal fuel rest4 with
            | none => none
            | some (v, rest5) =>
              match parseObjMore fuel rest5 with
              | some (kvs, rest6) => some ((key, v) :: kvs, rest6)
              | none => none
          | _ => none
      | _ => none
    | _ => none

end

/-- Python `json.loads`: one JSON value, then only whitespace to the end
of the input; anything else raises `JSONDecodeError` (`none` here). -/
def jsonLoads (l : Str) : Option PyVal :=
  match parseVal (2 * l.length + 2) l with
  | some (v, rest) => if skipWs rest = [] then some v else none
  | none => none

/-- Spec-side classifier: whether a decoded Python value is a list of
strings — the return shape `_parse_json_list`'s `list[str]` annotation
and the spec's fallback guarantee promise. -/
def pyIsStrList : PyVal → Bool
  | .parr l =>
    l.all (fun v =>
      match v with
      | .pstr _ => true
      | _ => false)
  | _ => false

/-! ## `Summarizer._parse_json_list` (summarizer.py lines 54-76) -/

/-- The cleaning phase of `_parse_json_list`: strip, remove literal
code-fence markers, strip again. -/
def stripCodeFences (response : Str) : Str :=
  pyStrip (pyReplace (pyReplace (pyStrip response) ("```json").data [] ) ("```").data [])

/-- The bracket-slicing phase of `_parse_json_list`: keep the substring
from the first `[` to the last `]` inclusive, when that range is
non-empty; otherwise keep the input unchanged. -/
def bracketSlice (cleaned : Str) : Str :=
  match pyFind '[' cleaned, pyRFind ']' cleaned with
  | some st, some en => if st < en + 1 then (cleaned.drop st).take (en + 1 - st) else cleaned
  | some _, none => cleaned
  | none, _ => cleaned

/-- The line starters discarded by the heuristic fallback of
`_parse_json_list` (code-artifact detection). -/
def fallbackStarts : List Str :=
  [("import").data, ("def ").data, ("for ").data, ("action_").data,
   ("meeting_").data, ("#").data, ("json").data, ("print").data]

/-- The character set stripped from the left of each fallback line
(`"•-*0123456789. \""`). -/
def stripSet : Str := ("•-*0123456789. \"").data

/-- Whether the fallback keeps a (stripped) line: non-blank, not a bare
bracket, and not starting like a code artifact. -/
def fallbackKeep (s : Str) : Bool :=
  !s.isEmpty && !(s == ("[").data) && !(s == ("]").data) &&
    !(fallbackStarts.any (fun p => p.isPrefixOf s))

/-- One line of the heuristic fallback: keep the stripped line with
leading bullet/numbering punctuation removed, or drop it. -/
def fallbackLine (line : Str) : Option Str :=
  if fallbackKeep (pyStrip line) then
    some ((pyStrip line).dropWhile (fun c => stripSet.contains c))
  else none

/-- The heuristic line-splitting fallback of `_parse_json_list`, applied
to the raw response. -/
def fallbackParse (response : Str) : List Str :=
  (pySplitOn '\n' response).filterMap fallbackLine

/-- `Summarizer._parse_json_list`: clean the response, slice to the
bracketed part, attempt `json.loads`, and fall back to heuristic line
splitting only on decode failure (`json.JSONDecodeError`).  On success
the decoded value is returned as-is, whatever its shape — the function
does not check that it is a list of strings. -/
def parseJsonList (response : Str) : PyVal :=
  match jsonLoads (bracketSlice (stripCodeFences response)) with
  | some v => v
  | none => .parr ((fallbackParse response).map .pstr)

/-! ## Summarizer (summarizer.py)

`Summarizer._chat` performs one chat-completion request; it is modelled as
an oracle `chat : Str → Str → Str` from (system prompt, user message) to
the response text.  Each operation also returns the list of requests it
issued, so request counts and request contents can be stated. -/

/-- One chat-completion request: (system prompt, user message). -/
structure ChatReq where
  system : Str
  user : Str
  deriving DecidableEq, Repr

/-- The summary system prompt of `generate_summary`. -/
def summarySystemPrompt : Str :=
  ("You are a professional meeting notes assistant. Generate a clear, concise summary of the meeting transcript. Focus on decisions made, topics discussed, and overall outcomes. Write in a professional tone using past tense.").data

/-- The key-points system prompt of `extract_key_points`. -/
def keyPointsSystemPrompt : Str :=
  ("OUTPUT FORMAT: JSON array only. Example: [\"Point 1\", \"Point 2\"]\nRULES: No code. No explanation. No markdown. No imports. No variables.\nTASK: Extract the most important key points from the meeting transcript below.").data

/-- The action-items system prompt of `extract_action_items`. -/
def actionItemsSystemPrompt : Str :=
  ("OUTPUT FORMAT: JSON array only. Example: [\"Action 1\", \"Action 2\"]\nRULES: No code. No explanation. No markdown. No imports. No variables.\nTASK: Extract all action items and follow-ups from the meeting transcript below.").data

/-- The title system prompt of `generate_title`. -/
def titleSystemPrompt : Str :=
  ("OUTPUT FORMAT: Plain text title only, max 10 words.\nRULES: No code. No explanation. No markdown. No quotes.\nTASK: Generate a short descriptive title for the meeting transcript below.").data

/-- The question-answering system prompt of `answer_question`. -/
def qaSystemPrompt : Str :=
  ("You are a professional meeting notes assistant. Answer the user's question based ONLY on the meeting transcript provided. If the answer is not in the transcript, say so clearly.").data

/-- The `f"Meeting transcript:\n\n{t}"` user message wrapper. -/
def userMessage (t : Str) : Str := ("Meeting transcript:\n\n").data ++ t

/-- `Summarizer._chunk_transcript`: whitespace-split the text and join
each consecutive group of `maxWords` words with single spaces (the Python
list comprehension over `range(0, len(words), max_words)`). -/
def chunkTranscript (text : Str) (maxWords : Nat) : List Str :=
  (List.range (((pySplitWs text).length + maxWords - 1) / maxWords)).map
    (fun k => List.intercalate [' '] (((pySplitWs text).drop (maxWords * k)).take maxWords))

/-- `" ".join(transcript.split()[:800])`: the truncation applied before
title/key-point/action-item/question requests. -/
def truncate800 (t : Str) : Str := List.intercalate [' '] ((pySplitWs t).take 800)

/-- `Summarizer.generate_summary` with the chat endpoint as an oracle:
returns the summary text and the ordered list of chat requests issued.
Single-chunk transcripts take one request; otherwise each chunk is
summarized and the concatenation of the partial summaries (joined by
blank lines) is summarized by one final request. -/
def generateSummary (chat : Str → Str → Str) (transcript : Str) : Str × List ChatReq :=
  let chunks := chunkTranscript transcript 800
  if chunks.length = 1 then
    (chat summarySystemPrompt (userMessage transcript),
     [⟨summarySystemPrompt, userMessage transcript⟩])
  else
    let pieces := chunks.map (fun c => chat summarySystemPrompt (userMessage c))
    let combined := List.intercalate ['\n', '\n'] pieces
    (chat summarySystemPrompt (userMessage combined),
     chunks.map (fun c => (⟨summarySystemPrompt, userMessage c⟩ : ChatReq)) ++
       [⟨summarySystemPrompt, userMessage combined⟩])

/-- `Summarizer.extract_key_points`: truncate to 800 words, issue one
request, parse the response leniently. -/
def extractKeyPoints (chat : Str → Str → Str) (transcript : Str) : PyVal × ChatReq :=
  (parseJsonList (chat keyPointsSystemPrompt (userMessage (truncate800 transcript))),
   ⟨keyPointsSystemPrompt, userMessage (truncate800 transcript)⟩)

/-- `Summarizer.extract_action_items`: truncate to 800 words, issue one
request, parse the response leniently. -/
def extractActionItems (chat : Str → Str → Str) (transcript : Str) : PyVal × ChatReq :=
  (parseJsonList (chat actionItemsSystemPrompt (userMessage (truncate800 transcript))),
   ⟨actionItemsSystemPrompt, userMessage (truncate800 transcript)⟩)

/-- `Summarizer.generate_title`: truncate to 800 words, one request. -/
def generateTitle (chat : Str → Str → Str) (transcript : Str) : Str × ChatReq :=
  (chat titleSystemPrompt (userMessage (truncate800 transcript)),
   ⟨titleSystemPrompt, userMessage (truncate800 transcript)⟩)

/-- `Summarizer.answer_question`: truncate to 800 words, one request with
the question appended to the user message. -/
def answerQuestion (chat : Str → Str → Str) (transcript question : Str) : Str × ChatReq :=
  (chat qaSystemPrompt
     (userMessage (truncate800 transcript) ++ ("\n\nQuestion: ").data ++ question),
   ⟨qaSystemPrompt,
    userMessage (truncate800 transcript) ++ ("\n\nQuestion: ").data ++ question⟩)

/-! ## Record store (database.py)

The `meetings` table is a list of rows plus the AUTOINCREMENT counter
(`nextId`); `key_points`/`action_items` are stored as the `json.dumps`
text exactly as in the schema.  Each operation is a pure function from
database value to database value plus result.  `rowToMeeting` returns
`none` where Python would raise (a stored list column that fails to
decode); rows written by `saveMeeting` always decode. -/

/-- The in-memory meeting record (`Meeting` pydantic model). -/
structure Meeting where
  id : Option Nat
  title : Str
  date : Str
  transcript : Str
  summary : Str
  key_points : List Str
  action_items : List Str
  audio_path : Str
  deriving DecidableEq, Repr

/-- One row of the `meetings` table; list-valued attributes are stored as
encoded text. -/
structure Row where
  id : Nat
  title : Str
  date : Str
  transcript : Str
  summary : Str
  key_points : Str
  action_items : Str
  audio_path : Str
  deriving DecidableEq, Repr

/-- The SQLite database state: rows plus the AUTOINCREMENT counter, which
is strictly larger than every identifier ever assigned. -/
structure MeetingDB where
  nextId : Nat
  rows : List Row
  deriving DecidableEq, Repr

/-- The row written for a meeting under identifier `i` (the INSERT/UPDATE
column list of `save_meeting`). -/
def rowOfMeeting (i : Nat) (m : Meeting) : Row :=
  ⟨i, m.title, m.date, m.transcript, m.summary,
   jsonDumpsList m.key_points, jsonDumpsList m.action_items, m.audio_path⟩

/-- `MeetingDatabase._row_to_meeting`: decode a row; `none` models the
exception Python would raise on an undecodable list column. -/
def rowToMeeting (r : Row) : Option Meeting :=
  match jsonLoadsStrList r.key_points, jsonLoadsStrList r.action_items with
  | some kp, some ai =>
      some ⟨some r.id, r.title, r.date, r.transcript, r.summary, kp, ai, r.audio_path⟩
  | _, _ => none

/-- `MeetingDatabase.save_meeting`: INSERT when `id` is absent (the fresh
identifier is the AUTOINCREMENT value, and the caller's record is mutated
with it — modelled by returning the updated record), UPDATE of all fields
by identifier otherwise.  The returned record's `id` is the Python return
value. -/
def saveMeeting (db : MeetingDB) (m : Meeting) : MeetingDB × Meeting :=
  match m.id with
  | none =>
      (⟨db.nextId + 1, db.rows ++ [rowOfMeeting db.nextId m]⟩,
       { m with id := some db.nextId })
  | some k =>
      (⟨db.nextId, db.rows.map (fun r => if r.id = k then rowOfMeeting k m else r)⟩, m)

/-- `MeetingDatabase.get_meeting`: first row with the identifier, decoded;
`none` when no row matches. -/
def getMeeting (db : MeetingDB) (i : Nat) : Option Meeting :=
  match db.rows.find? (fun r => r.id == i) with
  | none => none
  | some r => rowToMeeting r

/-- SQLite's default (binary) text comparison: lexicographic on code
points, shorter strings first on ties (UTF-8 byte order coincides with
code-point order). -/
def strLe : Str → Str → Bool
  | [], _ => true
  | _ :: _, [] => false
  | a :: as, b :: bs =>
    if a.toNat < b.toNat then true
    else if b.toNat < a.toNat then false
    else strLe as bs

/-- Insert a row into a list sorted by date descending. -/
def insertDateDesc (r : Row) : List Row → List Row
  | [] => [r]
  | x :: xs => if strLe x.date r.date then r :: x :: xs else x :: insertDateDesc r xs

/-- `ORDER BY date DESC`: sort rows by date descending (string order). -/
def sortDateDesc : List Row → List Row
  | [] => []
  | x :: xs => insertDateDesc x (sortDateDesc xs)

/-- `MeetingDatabase.get_all_meetings`: all rows, newest date first,
decoded (`none` models a raising decode, unreachable for rows written by
`saveMeeting`). -/
def getAllMeetings (db : MeetingDB) : Option (List Meeting) :=
  (sortDateDesc db.rows).mapM rowToMeeting

/-- `MeetingDatabase.delete_meeting`: look up the row, return `none` and
leave the store untouched when absent; otherwise return the stored
`audio_path` and delete the row.  The filesystem does not appear in the
model because the operation never touches it. -/
def deleteMeeting (db : MeetingDB) (i : Nat) : Option Str × MeetingDB :=
  match db.rows.find? (fun r => r.id == i) with
  | none => (none, db)
  | some r => (some r.audio_path, ⟨db.nextId, db.rows.filter (fun r2 => !(r2.id == i))⟩)

/-- SQLite `LIKE` case folding: ASCII letters compare case-insensitively,
all other characters byte-for-byte. -/
def foldAz (c : Char) : Char :=
  if 65 ≤ c.toNat ∧ c.toNat ≤ 90 then Char.ofNat (c.toNat + 32) else c

/-- SQLite `LIKE` pattern matching: `%` matches any sequence, `_` matches
exactly one character, other characters match ASCII-case-insensitively. -/
def likeMatch : Str → Str → Bool
  | [], s => s.isEmpty
  | '%' :: p, s => s.tails.any (fun t => likeMatch p t)
  | '_' :: p, s =>
    match s with
    | [] => false
    | _ :: s2 => likeMatch p s2
  | c :: p, s =>
    match s with
    | [] => false
    | d :: s2 => (foldAz c == foldAz d) && likeMatch p s2

/-- The `f"%{query}%"` pattern built by `search_meetings`. -/
def likePattern (q : Str) : Str := '%' :: (q ++ ['%'])

/-- The WHERE clause of `search_meetings`: `title LIKE ? OR transcript
LIKE ? OR summary LIKE ?` with the `%query%` pattern. -/
def rowMatches (q : Str) (r : Row) : Bool :=
  likeMatch (likePattern q) r.title || likeMatch (likePattern q) r.transcript ||
    likeMatch (likePattern q) r.summary

/-- `MeetingDatabase.search_meetings`: matching rows, newest date first,
decoded. -/
def searchMeetings (db : MeetingDB) (q : Str) : Option (List Meeting) :=
  (sortDateDesc (db.rows.filter (rowMatches q))).mapM rowToMeeting

/-- Well-formedness of a database state, maintained by every operation:
identifiers are unique and below the AUTOINCREMENT counter. -/
def DBWf (db : MeetingDB) : Prop :=
  (∀ r ∈ db.rows, r.id < db.nextId) ∧ (db.rows.map Row.id).Nodup

/-! ## Orchestrator (`app.py:_process_audio`)

The pipeline is sequential: duration probe, transcription, summarization,
save.  External effects are oracle parameters: `durationShort` is the
result of the soundfile probe (`none` models a probing exception, which is
ignored), `transcribed` the Whisper result text (`none` models an engine
exception propagating out), `ai` the `process_meeting` call (`none`
models a chat-endpoint exception propagating out).  The returned list
records which pipeline stages ran, in order. -/

/-- The externally visible stages of `_process_audio`. -/
inductive PipelineStep
  | transcribeStep
  | summarizeStep
  | saveStep
  deriving DecidableEq, Repr

/-- The outcome of a `_process_audio` run. -/
inductive ProcessOutcome
  | tooShort
  | noSpeech
  | engineFailure
  | completed (m : Meeting)
  deriving DecidableEq, Repr

/-- The dictionary returned by `Summarizer.process_meeting`. -/
structure AIResult where
  title : Str
  summary : Str
  key_points : List Str
  action_items : List Str
  deriving DecidableEq, Repr

/-- `_process_audio` over the oracles described above; `date` stands for
the `datetime.now()` default of the record's date field. -/
def processAudio (durationShort : Option Bool) (transcribed : Option Str)
    (ai : Str → Option AIResult) (audioPath date : Str) (db : MeetingDB) :
    MeetingDB × ProcessOutcome × List PipelineStep :=
  if durationShort = some true then (db, .tooShort, [])
  else
    match transcribed with
    | none => (db, .engineFailure, [.transcribeStep])
    | some t =>
      if pyStrip t = [] then (db, .noSpeech, [.transcribeStep])
      else
        match ai t with
        | none => (db, .engineFailure, [.transcribeStep, .summarizeStep])
        | some res =>
          let sm := saveMeeting db
            ⟨none, res.title, date, t, res.summary, res.key_points,
             res.action_items, audioPath⟩
          (sm.1, .completed sm.2,
           [.transcribeStep, .summarizeStep, .saveStep])

/-! ## Spec-side definitions (for refinement claims)

`ciContains q s` follows the spec's words for `search`: the query occurs
in the field as a substring, up to the ASCII case folding SQLite's `LIKE`
applies. -/

/-- Spec-side substring containment, ASCII-case-insensitively. -/
def ciContains (q s : Str) : Prop := (q.map foldAz) <:+: (s.map foldAz)

instance (q s : Str) : Decidable (ciContains q s) := by
  unfold ciContains
  infer_instance

/-- Decidability of the database invariant (for evaluating it on concrete
states). -/
instance (db : MeetingDB) : Decidable (DBWf db) := by
  unfold DBWf
  exact instDecidableAnd

/-! ## Theorems: JSON round-trip -/

theorem hexVal_hexDigit (m : Nat) (h : m < 16) : hexVal (hexDigit m) = some m := by
  interval_cases m <;> decide

theorem parseStrBody_plain (c : Char) (h1 : ¬c = '"') (h2 : ¬c = '\\')
    (h3 : ¬c.toNat < 32) (r : Str) :
    parseStrBody (c :: r) = (parseStrBody r).map (fun p => (c :: p.1, p.2)) := by
  rw [parseStrBody]
  · rw [if_neg h3]
  · exact fun h => h1 h
  · intro _ _ _ _ _ hc _
    exact h2 hc
  · intro _ hc _
    exact h2 hc
  · intro _ _ hc _
    exact h2 hc
  · intro hc _
    exact h2 hc

theorem parseStrBody_u_scalar (n : Nat) (h : n < 65536)
    (hs : n < 55296 ∨ 57344 ≤ n) (t : Str) :
    parseStrBody ('\\' :: 'u' :: (hex4 n ++ t)) =
      (parseStrBody t).map (fun p => (Char.ofNat n :: p.1, p.2)) := by
  have e1 : hexVal (hexDigit (n / 4096 % 16)) = some (n / 4096 % 16) :=
    hexVal_hexDigit _ (Nat.mod_lt _ (by norm_num))
  have e2 : hexVal (hexDigit (n / 256 % 16)) = some (n / 256 % 16) :=
    hexVal_hexDigit _ (Nat.mod_lt _ (by norm_num))
  have e3 : hexVal (hexDigit (n / 16 % 16)) = some (n / 16 % 16) :=
    hexVal_hexDigit _ (Nat.mod_lt _ (by norm_num))
  have e4 : hexVal (hexDigit (n % 16)) = some (n % 16) :=
    hexVal_hexDigit _ (Nat.mod_lt _ (by norm_num))
  have hn : n / 4096 % 16 * 4096 + n / 256 % 16 * 256 + n / 16 % 16 * 16 + n % 16 = n := by
    omega
  simp only [hex4, List.cons_append, List.nil_append, parseStrBody, e1, e2, e3, e4]
  rw [hn]
  rw [if_neg (by omega), if_neg (by omega)]

theorem parseStrBody_u_pair (n m : Nat)
    (hn1 : 55296 ≤ n) (hn2 : n < 56320) (hm1 : 56320 ≤ m) (hm2 : m < 57344) (t : Str) :
    parseStrBody ('\\' :: 'u' :: (hex4 n ++ ('\\' :: 'u' :: (hex4 m ++ t)))) =
      (parseStrBody t).map (fun p =>
        (Char.ofNat (65536 + (n - 55296) * 1024 + (m - 56320)) :: p.1, p.2)) := by
  have e1 : hexVal (hexDigit (n / 4096 % 16)) = some (n / 4096 % 16) :=
    hexVal_hexDigit _ (Nat.mod_lt _ (by norm_num))
  have e2 : hexVal (hexDigit (n / 256 % 16)) = some (n / 256 % 16) :=
    hexVal_hexDigit _ (Nat.mod_lt _ (by norm_num))
  have e3 : hexVal (hexDigit (n / 16 % 16)) = some (n / 16 % 16) :=
    hexVal_hexDigit _ (Nat.mod_lt _ (by norm_num))
  have e4 : hexVal (hexDigit (n % 16)) = some (n % 16) :=
    hexVal_hexDigit _ (Nat.mod_lt _ (by norm_num))
  have f1 : hexVal (hexDigit (m / 4096 % 16)) = some (m / 4096 % 16) :=
    hexVal_hexDigit _ (Nat.mod_lt _ (by norm_num))
  have f2 : hexVal (hexDigit (m / 256 % 16)) = some (m / 256 % 16) :=
    hexVal_hexDigit _ (Nat.mod_lt _ (by norm_num))
  have f3 : hexVal (hexDigit (m / 16 % 16)) = some (m / 16 % 16) :=
    hexVal_hexDigit _ (Nat.mod_lt _ (by norm_num))
  have f4 : hexVal (hexDigit (m % 16)) = some (m % 16) :=
    hexVal_hexDigit _ (Nat.mod_lt _ (by norm_num))
  have hn : n / 4096 % 16 * 4096 + n / 256 % 16 * 256 + n / 16 % 16 * 16 + n % 16 = n := by
    omega
  have hm : m / 4096 % 16 * 4096 + m / 256 % 16 * 256 + m / 16 % 16 * 16 + m % 16 = m := by
    omega
  simp only [hex4, List.cons_append, List.nil_append, parseStrBody, e1, e2, e3, e4, f1, f2, f3, f4]
  rw [hn, hm]
  rw [if_pos (by constructor <;> omega), if_pos (by constructor <;> omega)]

theorem char_toNat_lt (c : Char) : c.toNat < 1114112 := by
  have h := c.valid
  rcases h with h | ⟨h1, h2⟩
  · show c.val.toNat < 1114112
    omega
  · show c.val.toNat < 1114112
    omega

theorem char_notSurrogate (c : Char) : c.toNat < 55296 ∨ 57344 ≤ c.toNat := by
  have h := c.valid
  rcases h with h | ⟨h1, h2⟩
  · left
    show c.val.toNat < 55296
    omega
  · right
    show 57344 ≤ c.val.toNat
    omega

theorem parseStrBody_escChar (c : Char) (t : Str) :
    parseStrBody (escChar c ++ t) =
      (parseStrBody t).map (fun p => (c :: p.1, p.2)) := by
  by_cases h1 : c = '\\'
  · subst h1
    simp [escChar, parseStrBody, escUnmap]
  by_cases h2 : c = '"'
  · subst h2
    simp [escChar, parseStrBody, escUnmap]
  by_cases h3 : c.toNat = 8
  · have hc : c = Char.ofNat 8 := by rw [← h3, Char.ofNat_toNat]
    simp only [escChar, if_neg h1, if_neg h2, if_pos h3, List.cons_append, List.nil_append]
    conv_rhs => rw [hc]
    simp [parseStrBody, escUnmap]
  by_cases h4 : c.toNat = 9
  · have hc : c = '\t' := by
      have h := Char.ofNat_toNat c
      rw [h4] at h
      exact h.symm
    simp only [escChar, if_neg h1, if_neg h2, if_neg h3, if_pos h4,
      List.cons_append, List.nil_append]
    conv_rhs => rw [hc]
    simp [parseStrBody, escUnmap]
  by_cases h5 : c.toNat = 10
  · have hc : c = '\n' := by
      have h := Char.ofNat_toNat c
      rw [h5] at h
      exact h.symm
    simp only [escChar, if_neg h1, if_neg h2, if_neg h3, if_neg h4, if_pos h5,
      List.cons_append, List.nil_append]
    conv_rhs => rw [hc]
    simp [parseStrBody, escUnmap]
  by_cases h6 : c.toNat = 12
  · have hc : c = Char.ofNat 12 := by rw [← h6, Char.ofNat_toNat]
    simp only [escChar, if_neg h1, if_neg h2, if_neg h3, if_neg h4, if_neg h5, if_pos h6,
      List.cons_append, List.nil_append]
    conv_rhs => rw [hc]
    simp [parseStrBody, escUnmap]
  by_cases h7 : c.toNat = 13
  · have hc : c = '\r' := by
      have h := Char.ofNat_toNat c
      rw [h7] at h
      exact h.symm
    simp only [escChar, if_neg h1, if_neg h2, if_neg h3, if_neg h4, if_neg h5, if_neg h6,
      if_pos h7, List.cons_append, List.nil_append]
    conv_rhs => rw [hc]
    simp [parseStrBody, escUnmap]
  by_cases h8 : 32 ≤ c.toNat ∧ c.toNat ≤ 126
  · simp only [escChar, if_neg h1, if_neg h2, if_neg h3, if_neg h4, if_neg h5,
      if_neg h6, if_neg h7, if_pos h8, List.cons_append, List.nil_append]
    exact parseStrBody_plain c h2 h1 (by omega) t
  by_cases h9 : c.toNat < 65536
  · simp only [escChar, if_neg h1, if_neg h2, if_neg h3, if_neg h4, if_neg h5,
      if_neg h6, if_neg h7, if_neg h8, if_pos h9, List.cons_append]
    rw [parseStrBody_u_scalar c.toNat h9 (char_notSurrogate c) t, Char.ofNat_toNat]
  · have hlt := char_toNat_lt c
    simp only [escChar, if_neg h1, if_neg h2, if_neg h3, if_neg h4, if_neg h5,
      if_neg h6, if_neg h7, if_neg h8, if_neg h9, List.cons_append,
      List.append_assoc, List.nil_append]
    rw [parseStrBody_u_pair (55296 + (c.toNat - 65536) / 1024)
      (56320 + (c.toNat - 65536) % 1024) (by omega) (by omega) (by omega)
      (by
        have : (c.toNat - 65536) % 1024 < 1024 := Nat.mod_lt _ (by norm_num)
        omega) t]
    have hco : 65536 + (55296 + (c.toNat - 65536) / 1024 - 55296) * 1024 +
        (56320 + (c.toNat - 65536) % 1024 - 56320) = c.toNat := by
      omega
    rw [hco, Char.ofNat_toNat]

theorem parseStrBody_enc (s : Str) (r : Str) :
    parseStrBody ((s.map escChar).flatten ++ '"' :: r) = some (s, r) := by
  induction s with
  | nil => simp [parseStrBody]
  | cons c s ih =>
      simp only [List.map_cons, List.flatten_cons, List.append_assoc]
      rw [parseStrBody_escChar, ih]
      rfl

theorem encTail_length (ss : List Str) : ss.length ≤ (encTail ss).length := by
  induction ss with
  | nil => simp [encTail]
  | cons s ss ih =>
      simp only [encTail, List.map_cons, List.flatten_cons, List.length_append,
        List.length_cons] at *
      omega

theorem parseTail_encTail (ss : List Str) :
    ∀ (fuel : Nat) (r : Str), ss.length < fuel →
      parseTail fuel (encTail ss ++ ']' :: r) = some (ss, r) := by
  induction ss with
  | nil =>
      intro fuel r h
      match fuel, h with
      | fuel + 1, _ =>
        simp [encTail, parseTail, skipWs, jsonWs]
  | cons s ss ih =>
      intro fuel r h
      match fuel, h with
      | fuel + 1, h =>
        have hb : parseStrBody ((s.map escChar).flatten ++ '"' :: (encTail ss ++ ']' :: r)) =
            some (s, encTail ss ++ ']' :: r) := parseStrBody_enc s _
        have ht : parseTail fuel (encTail ss ++ ']' :: r) = some (ss, r) := by
          apply ih
          simpa using h
        simp only [encTail, List.map_cons, List.flatten_cons, List.cons_append,
          List.append_assoc]
        rw [parseTail]
        have w1 : jsonWs ',' = false := by decide
        have w2 : jsonWs ' ' = true := by decide
        have w3 : jsonWs '"' = false := by decide
        simp only [skipWs, List.dropWhile_cons, w1, w2, w3, Bool.false_eq_true,
          if_false, if_true, encStr, List.cons_append, List.append_assoc,
          List.singleton_append]
        simp only [encTail, encStr, List.map_cons, List.flatten_cons, List.cons_append,
          List.append_assoc, List.nil_append] at hb ht ⊢
        rw [hb]
        simp only [ht]

theorem parseArr_enc (s : Str) (ss : List Str) (fuel : Nat) (h : ss.length < fuel) :
    parseArr fuel ((encStr s ++ encTail ss) ++ [']']) = some (s :: ss, []) := by
  have hb : parseStrBody ((s.map escChar).flatten ++ '"' :: (encTail ss ++ [']'])) =
      some (s, encTail ss ++ [']']) := parseStrBody_enc s _
  have ht : parseTail fuel (encTail ss ++ [']']) = some (ss, []) :=
    parseTail_encTail ss fuel [] h
  have w3 : jsonWs '"' = false := by decide
  simp only [parseArr, skipWs, encStr, List.cons_append, List.append_assoc,
    List.dropWhile_cons, w3, Bool.false_eq_true, if_false, List.nil_append]
  rw [hb]
  simp only [ht]

theorem jsonLoadsStrList_dumps (l : List Str) :
    jsonLoadsStrList (jsonDumpsList l) = some l := by
  cases l with
  | nil => decide
  | cons s ss =>
      have hlen : ss.length < ((encStr s ++ encTail ss) ++ [']']).length + 1 := by
        have h1 := encTail_length ss
        simp only [List.length_append]
        omega
      have hp := parseArr_enc s ss (((encStr s ++ encTail ss) ++ [']']).length + 1) hlen
      have w0 : jsonWs '[' = false := by decide
      simp only [jsonDumpsList, jsonLoadsStrList, skipWs, List.cons_append,
        List.append_assoc, List.dropWhile_cons, w0, Bool.false_eq_true, if_false]
      simp only [List.append_assoc] at hp ⊢
      rw [hp]
      simp [skipWs]

/-! ## Theorems: Python string splitting, chunking, LIKE matching, ordering,
and the claims C1-C10 -/

theorem splitWsAux_words (l : Str) :
    ∀ acc, (∀ c ∈ acc, pyWs c = false) →
      ∀ w ∈ splitWsAux l acc, w ≠ [] ∧ ∀ c ∈ w, pyWs c = false := by
  induction l with
  | nil =>
      intro acc hacc w hw
      simp only [splitWsAux] at hw
      by_cases h : acc = []
      · simp [h] at hw
      · simp [h] at hw
        subst hw
        constructor
        · simpa using h
        · intro c hc
          exact hacc c (by simpa using hc)
  | cons c rest ih =>
      intro acc hacc w hw
      simp only [splitWsAux] at hw
      by_cases h : pyWs c
      · simp only [h, if_true] at hw
        by_cases ha : acc = []
        · simp only [ha, if_true] at hw
          exact ih [] (by simp) w hw
        · simp only [ha, if_false] at hw
          rcases List.mem_cons.1 hw with h1 | h1
          · subst h1
            constructor
            · simpa using ha
            · intro x hx
              exact hacc x (by simpa using hx)
          · exact ih [] (by simp) w h1
      · simp only [h, if_false] at hw
        refine ih (c :: acc) ?_ w hw
        intro x hx
        rcases List.mem_cons.1 hx with h1 | h1
        · subst h1
          simpa using h
        · exact hacc x h1

theorem pySplitWs_words (s : Str) :
    ∀ w ∈ pySplitWs s, w ≠ [] ∧ ∀ c ∈ w, pyWs c = false :=
  splitWsAux_words s [] (by simp)

theorem splitWsAux_word_sep (w : Str) :
    ∀ acc rest, w ≠ [] → (∀ c ∈ w, pyWs c = false) →
      splitWsAux (w ++ ' ' :: rest) acc = (acc.reverse ++ w) :: splitWsAux rest [] := by
  induction w with
  | nil => intro acc rest h; exact absurd rfl h
  | cons c w ih =>
      intro acc rest _ hchars
      have hc : pyWs c = false := hchars c (by simp)
      by_cases hw : w = []
      · subst hw
        simp only [List.cons_append, List.nil_append, splitWsAux, hc, if_false,
          Bool.false_eq_true]
        have hsp : pyWs ' ' = true := by decide
        simp [splitWsAux, hsp]
      · simp only [List.cons_append, splitWsAux, hc, Bool.false_eq_true, if_false,
          List.append_eq]
        rw [ih (c :: acc) rest hw (fun x hx => hchars x (by simp [hx]))]
        simp

theorem splitWsAux_word_end (w : Str) :
    ∀ acc, w ≠ [] → (∀ c ∈ w, pyWs c = false) →
      splitWsAux w acc = [acc.reverse ++ w] := by
  induction w with
  | nil => intro acc h; exact absurd rfl h
  | cons c w ih =>
      intro acc _ hchars
      have hc : pyWs c = false := hchars c (by simp)
      by_cases hw : w = []
      · subst hw
        simp [splitWsAux, hc]
      · simp only [splitWsAux, hc, Bool.false_eq_true, if_false, List.append_eq]
        rw [ih (c :: acc) hw (fun x hx => hchars x (by simp [hx]))]
        simp

theorem pySplitWs_intercalate (ws : List Str)
    (h : ∀ w ∈ ws, w ≠ [] ∧ ∀ c ∈ w, pyWs c = false) :
    pySplitWs (List.intercalate [' '] ws) = ws := by
  induction ws with
  | nil => simp [List.intercalate, pySplitWs, splitWsAux]
  | cons w ws ih =>
      cases ws with
      | nil =>
          have hw := h w (by simp)
          have h1 : List.intercalate [' '] [w] = w := by simp [List.intercalate]
          rw [h1]
          unfold pySplitWs
          rw [splitWsAux_word_end w [] hw.1 hw.2]
          simp
      | cons v vs =>
          have hw := h w (by simp)
          have hstep : List.intercalate [' '] (w :: v :: vs) =
              w ++ ' ' :: List.intercalate [' '] (v :: vs) := by
            simp [List.intercalate, List.intersperse]
          rw [hstep]
          unfold pySplitWs
          rw [splitWsAux_word_sep w [] _ hw.1 hw.2]
          simp only [List.reverse_nil, List.nil_append]
          have := ih (fun x hx => h x (by simp [hx]))
          unfold pySplitWs at this
          rw [this]

theorem chunksFlatten (m : Nat) :
    ∀ (n : Nat) (ws : List Str), ws.length ≤ m * n →
      ((List.range n).map (fun k => (ws.drop (m * k)).take m)).flatten = ws := by
  intro n
  induction n with
  | zero =>
      intro ws h
      simp only [Nat.mul_zero, Nat.le_zero] at h
      have : ws = [] := List.length_eq_zero.1 h
      simp [this]
  | succ n ih =>
      intro ws h
      rw [List.range_succ_eq_map]
      simp only [List.map_cons, List.flatten_cons, List.map_map]
      have hc : ∀ k, ((fun k => (ws.drop (m * k)).take m) ∘ Nat.succ) k =
          (fun k => ((ws.drop m).drop (m * k)).take m) k := by
        intro k
        simp only [Function.comp]
        rw [List.drop_drop]
        congr 2
        simp [Nat.succ_eq_add_one]
        ring
      rw [List.map_congr_left (fun k _ => hc k)]
      have hlen2 : (ws.drop m).length ≤ m * n := by
        have hx : m * (n + 1) = m * n + m := by ring
        rw [hx] at h
        simp only [List.length_drop]
        omega
      rw [ih (ws.drop m) hlen2]
      simp

theorem chunkTranscript_length (t : Str) (m : Nat) :
    (chunkTranscript t m).length = ((pySplitWs t).length + m - 1) / m := by
  simp [chunkTranscript]

/-- C4: a transcript of at most 800 (whitespace-split) words makes
`generate_summary` issue exactly one chat request; over 1600 words the
transcript is split into at least two (here at least three) sequential
chunks of at most 800 words each — the chunks’ word lists concatenate back
to the transcript’s word list, so no word is ever split — each chunk gets
one partial-summary request and one final reduction request follows. -/
theorem c4_generate_summary_chunking (chat : Str → Str → Str) (t : Str) :
    ((pySplitWs t).length ≤ 800 → (generateSummary chat t).2.length = 1) ∧
    (1600 < (pySplitWs t).length →
      2 ≤ (chunkTranscript t 800).length ∧
      (generateSummary chat t).2.length = (chunkTranscript t 800).length + 1 ∧
      ((chunkTranscript t 800).map pySplitWs).flatten = pySplitWs t ∧
      (∀ c ∈ chunkTranscript t 800, (pySplitWs c).length ≤ 800 ∧ pySplitWs c ≠ [])) := by
  have hlen : (chunkTranscript t 800).length = ((pySplitWs t).length + 799) / 800 :=
    chunkTranscript_length t 800
  constructor
  · intro h800
    by_cases h1 : (chunkTranscript t 800).length = 1
    · simp [generateSummary, h1]
    · have h0 : (chunkTranscript t 800).length = 0 := by omega
      simp [generateSummary, h1]
      simp only [List.length_eq_zero] at h0
      simp [h0]
  · intro hbig
    have hn : 3 ≤ (chunkTranscript t 800).length := by omega
    have hslices : ∀ k < (chunkTranscript t 800).length,
        pySplitWs (List.intercalate [' '] (((pySplitWs t).drop (800 * k)).take 800)) =
          ((pySplitWs t).drop (800 * k)).take 800 := by
      intro k _
      apply pySplitWs_intercalate
      intro w hw
      have hmem : w ∈ pySplitWs t := by
        have h1 := List.mem_of_mem_take hw
        exact List.mem_of_mem_drop h1
      exact pySplitWs_words t w hmem
    refine ⟨by omega, ?_, ?_, ?_⟩
    · have h1 : ¬(chunkTranscript t 800).length = 1 := by omega
      simp [generateSummary, h1]
    · unfold chunkTranscript
      rw [List.map_map]
      have heq : ∀ k ∈ List.range (((pySplitWs t).length + 800 - 1) / 800),
          (pySplitWs ∘ fun k => List.intercalate [' '] (((pySplitWs t).drop (800 * k)).take 800)) k =
            (fun k => (((pySplitWs t)).drop (800 * k)).take 800) k := by
        intro k hk
        simp only [Function.comp]
        apply hslices
        rw [hlen]
        simpa using hk
      rw [List.map_congr_left heq]
      apply chunksFlatten
      omega
    · intro c hc
      unfold chunkTranscript at hc
      rcases List.mem_map.1 hc with ⟨k, hk, rfl⟩
      rw [hslices k (by rw [hlen]; simpa using hk)]
      have hkr : k < ((pySplitWs t).length + 800 - 1) / 800 := by simpa using hk
      constructor
      · simp
      · have hlt : 800 * k < (pySplitWs t).length := by omega
        have : (((pySplitWs t).drop (800 * k)).take 800).length = min 800 ((pySplitWs t).length - 800 * k) := by
          simp
        intro hemp
        rw [hemp] at this
        simp at this
        omega

/-- C8: `extract_key_points`, `extract_action_items`, `generate_title`
and `answer_question` each submit only the first 800 whitespace-split
words of the transcript, joined by single spaces: two transcripts
agreeing on their first 800 words produce identical chat requests, and
the submitted user message is literally the wrapper around that 800-word
join. -/
theorem c8_truncate_800 (chat : Str → Str → Str) (t1 t2 q : Str)
    (h : (pySplitWs t1).take 800 = (pySplitWs t2).take 800) :
    (extractKeyPoints chat t1).2 = (extractKeyPoints chat t2).2 ∧
    (extractActionItems chat t1).2 = (extractActionItems chat t2).2 ∧
    (generateTitle chat t1).2 = (generateTitle chat t2).2 ∧
    (answerQuestion chat t1 q).2 = (answerQuestion chat t2 q).2 ∧
    (extractKeyPoints chat t1).2.user =
      ("Meeting transcript:\n\n").data ++ List.intercalate [' '] ((pySplitWs t1).take 800) := by
  have ht : truncate800 t1 = truncate800 t2 := by
    unfold truncate800
    rw [h]
  refine ⟨?_, ?_, ?_, ?_, rfl⟩ <;>
    simp [extractKeyPoints, extractActionItems, generateTitle, answerQuestion, ht]

theorem likeMatch_nilPat (s : Str) : likeMatch [] s = s.isEmpty := by
  rw [likeMatch]

theorem likeMatch_pct (p : Str) (s : Str) :
    likeMatch ('%' :: p) s = s.tails.any (fun t => likeMatch p t) := by
  simp only [likeMatch]

theorem likeMatch_uscore (p : Str) (s : Str) :
    likeMatch ('_' :: p) s = match s with | [] => false | _ :: s2 => likeMatch p s2 := by
  simp only [likeMatch]

theorem likeMatch_lit (c : Char) (hc1 : ¬c = '%') (hc2 : ¬c = '_') (p : Str) (s : Str) :
    likeMatch (c :: p) s =
      match s with
      | [] => false
      | d :: s2 => (foldAz c == foldAz d) && likeMatch p s2 := by
  rw [likeMatch.eq_def]
  split <;> rename_i heq
  · exact absurd heq (List.cons_ne_nil c p)
  · injection heq with h1 h2
    exact absurd h1 hc1
  · injection heq with h1 h2
    exact absurd h1 hc2
  · injection heq with h1 h2
    subst h1
    subst h2
    rfl

theorem likeMatch_litSeq (q : Str) (hq : ∀ c ∈ q, ¬c = '%' ∧ ¬c = '_') :
    ∀ s, likeMatch (q ++ ['%']) s = true ↔ (q.map foldAz) <+: (s.map foldAz) := by
  induction q with
  | nil =>
      intro s
      simp only [List.nil_append, List.map_nil]
      rw [likeMatch_pct]
      constructor
      · intro _
        exact List.nil_prefix
      · intro _
        rw [List.any_eq_true]
        exact ⟨[], (List.mem_tails _ _).2 List.nil_suffix, by rw [likeMatch_nilPat]; rfl⟩
  | cons c q ih =>
      intro s
      have hc := hq c (by simp)
      rw [List.cons_append]
      cases s with
      | nil =>
          rw [likeMatch_lit c hc.1 hc.2]
          simp
      | cons d s2 =>
          have hred : likeMatch (c :: (q ++ ['%'])) (d :: s2) =
              ((foldAz c == foldAz d) && likeMatch (q ++ ['%']) s2) := by
            rw [likeMatch_lit c hc.1 hc.2]
          rw [hred]
          simp only [List.map_cons, List.cons_prefix_cons]
          rw [Bool.and_eq_true, beq_iff_eq]
          rw [ih (fun x hx => hq x (by simp [hx])) s2]

theorem likeMatch_pattern_iff (q : Str) (hq : ∀ c ∈ q, ¬c = '%' ∧ ¬c = '_') (s : Str) :
    likeMatch (likePattern q) s = true ↔ ciContains q s := by
  unfold likePattern ciContains
  rw [likeMatch_pct, List.any_eq_true]
  constructor
  · rintro ⟨t, ht, hm⟩
    have hsuf := (List.mem_tails _ _).1 ht
    have hpre := (likeMatch_litSeq q hq t).1 hm
    exact (List.infix_iff_prefix_suffix).2 ⟨t.map foldAz, hpre, hsuf.map foldAz⟩
  · intro hinf
    rcases (List.infix_iff_prefix_suffix).1 hinf with ⟨t2, hpre, hsuf⟩
    rcases hsuf with ⟨u, hu⟩
    rcases List.map_eq_append_iff.1 hu.symm with ⟨s1, s2, hs, hm1, hm2⟩
    refine ⟨s2, (List.mem_tails _ _).2 ⟨s1, hs.symm⟩, ?_⟩
    rw [likeMatch_litSeq q hq s2, hm2]
    exact hpre

theorem strLe_total (a : Str) : ∀ b, strLe a b = true ∨ strLe b a = true := by
  induction a with
  | nil => intro b; left; rw [strLe]
  | cons x as ih =>
      intro b
      cases b with
      | nil => right; rw [strLe]
      | cons y bs =>
          by_cases h1 : x.toNat < y.toNat
          · left
            rw [strLe]
            simp [h1]
          · by_cases h2 : y.toNat < x.toNat
            · right
              rw [strLe]
              simp [h2]
            · rcases ih bs with h | h
              · left
                rw [strLe]
                simp [h1, h2, h]
              · right
                rw [strLe]
                simp only [if_neg h2, if_neg h1]
                exact h

theorem strLe_trans (a : Str) : ∀ b c, strLe a b = true → strLe b c = true → strLe a c = true := by
  induction a with
  | nil => intro b c _ _; rw [strLe]
  | cons x as ih =>
      intro b c hab hbc
      cases b with
      | nil => rw [strLe] at hab; exact absurd hab (by simp)
      | cons y bs =>
          cases c with
          | nil => rw [strLe] at hbc; exact absurd hbc (by simp)
          | cons z cs =>
              rw [strLe] at hab hbc ⊢
              by_cases h1 : x.toNat < y.toNat
              · by_cases h2 : y.toNat < z.toNat
                · simp [show x.toNat < z.toNat by omega]
                · rw [if_neg h2] at hbc
                  by_cases h3 : z.toNat < y.toNat
                  · simp [h3] at hbc
                  · simp [show x.toNat < z.toNat by omega]
              · rw [if_neg h1] at hab
                by_cases h1b : y.toNat < x.toNat
                · simp [h1b] at hab
                · rw [if_neg h1b] at hab
                  by_cases h2 : y.toNat < z.toNat
                  · simp [show x.toNat < z.toNat by omega]
                  · rw [if_neg h2] at hbc
                    by_cases h3 : z.toNat < y.toNat
                    · simp [h3] at hbc
                    · rw [if_neg h3] at hbc
                      rw [if_neg (show ¬x.toNat < z.toNat by omega),
                        if_neg (show ¬z.toNat < x.toNat by omega)]
                      exact ih bs cs hab hbc

theorem mem_insertDateDesc (r : Row) (l : List Row) :
    ∀ y ∈ insertDateDesc r l, y = r ∨ y ∈ l := by
  induction l with
  | nil =>
      intro y hy
      rw [insertDateDesc] at hy
      left
      simpa using hy
  | cons x xs ih =>
      intro y hy
      rw [insertDateDesc] at hy
      by_cases h : strLe x.date r.date
      · simp only [h, if_true] at hy
        rcases List.mem_cons.1 hy with h1 | h1
        · left; exact h1
        · right; exact h1
      · simp only [h, Bool.false_eq_true, if_false] at hy
        rcases List.mem_cons.1 hy with h1 | h1
        · right; simp [h1]
        · rcases ih y h1 with h2 | h2
          · left; exact h2
          · right; simp [h2]

theorem pairwise_insertDateDesc (r : Row) (l : List Row)
    (h : l.Pairwise (fun a b => strLe b.date a.date = true)) :
    (insertDateDesc r l).Pairwise (fun a b => strLe b.date a.date = true) := by
  induction l with
  | nil => simp [insertDateDesc]
  | cons x xs ih =>
      rw [insertDateDesc]
      rcases List.pairwise_cons.1 h with ⟨hx, hxs⟩
      by_cases hc : strLe x.date r.date
      · simp only [hc, if_true]
        refine List.pairwise_cons.2 ⟨?_, h⟩
        intro y hy
        rcases List.mem_cons.1 hy with h1 | h1
        · subst h1; exact hc
        · exact strLe_trans _ _ _ (hx y h1) hc
      · simp only [hc, Bool.false_eq_true, if_false]
        refine List.pairwise_cons.2 ⟨?_, ih hxs⟩
        intro y hy
        rcases mem_insertDateDesc r xs y hy with h1 | h1
        · rcases strLe_total x.date r.date with h2 | h2
          · exact absurd h2 hc
          · rw [h1]
            exact h2
        · exact hx y h1

theorem pairwise_sortDateDesc (l : List Row) :
    (sortDateDesc l).Pairwise (fun a b => strLe b.date a.date = true) := by
  induction l with
  | nil => simp [sortDateDesc]
  | cons x xs ih => exact pairwise_insertDateDesc x _ ih

theorem rowToMeeting_rowOfMeeting (i : Nat) (m : Meeting) :
    rowToMeeting (rowOfMeeting i m) = some { m with id := some i } := by
  simp [rowToMeeting, rowOfMeeting, jsonLoadsStrList_dumps]

theorem find?_update (rows : List Row) (k : Nat) (m : Meeting) :
    (rows.map (fun r => if r.id = k then rowOfMeeting k m else r)).find?
        (fun r => r.id == k) =
      (rows.find? (fun r => r.id == k)).map (fun _ => rowOfMeeting k m) := by
  induction rows with
  | nil => simp
  | cons r rows ih =>
      by_cases h : r.id = k
      · rw [List.map_cons, if_pos h]
        rw [List.find?_cons_of_pos _ (by simp [rowOfMeeting])]
        rw [List.find?_cons_of_pos _ (by simp [h])]
        simp
      · rw [List.map_cons, if_neg h]
        rw [List.find?_cons_of_neg _ (by simp [h])]
        rw [List.find?_cons_of_neg _ (by simp [h])]
        exact ih

/-- C1: saving a record without an identifier inserts: it assigns the fresh
AUTOINCREMENT identifier (present in no existing row), mutates the caller’s
record with it, grows the row count by one, and a subsequent get of that
identifier returns the saved record; saving with an identifier present in
the store updates in place: the row count does not increase and a
subsequent get by that identifier reflects all updated fields. -/
theorem c1_save_insert_update (db : MeetingDB) (m : Meeting) (hwf : DBWf db) :
    (m.id = none →
      (saveMeeting db m).2.id = some db.nextId ∧
      (∀ r ∈ db.rows, r.id ≠ db.nextId) ∧
      (saveMeeting db m).1.rows.length = db.rows.length + 1 ∧
      getMeeting (saveMeeting db m).1 db.nextId = some { m with id := some db.nextId }) ∧
    (∀ k, m.id = some k → k ∈ db.rows.map Row.id →
      (saveMeeting db m).1.rows.length = db.rows.length ∧
      getMeeting (saveMeeting db m).1 k = some m) := by
  constructor
  · intro hid
    have hfresh : ∀ r ∈ db.rows, r.id ≠ db.nextId := by
      intro r hr
      have := hwf.1 r hr
      omega
    refine ⟨by simp [saveMeeting, hid], hfresh, by simp [saveMeeting, hid], ?_⟩
    simp only [saveMeeting, hid]
    unfold getMeeting
    rw [List.find?_append]
    rw [List.find?_eq_none.2 (fun r hr => by simp [hfresh r hr])]
    rw [Option.none_or]
    rw [List.find?_cons_of_pos _ (by simp [rowOfMeeting])]
    exact rowToMeeting_rowOfMeeting db.nextId m
  · intro k hid hk
    have hupd : saveMeeting db m =
        (⟨db.nextId, db.rows.map (fun r => if r.id = k then rowOfMeeting k m else r)⟩, m) := by
      simp [saveMeeting, hid]
    refine ⟨by rw [hupd]; simp, ?_⟩
    rw [hupd]
    unfold getMeeting
    simp only
    rw [find?_update]
    rcases List.mem_map.1 hk with ⟨r0, hr0, hid0⟩
    cases hfind : db.rows.find? (fun r => r.id == k) with
    | none =>
        rw [List.find?_eq_none] at hfind
        exact absurd (by simp [hid0]) (hfind r0 hr0)
    | some r1 =>
        simp only [Option.map_some']
        rw [rowToMeeting_rowOfMeeting]
        have : ({ m with id := some k } : Meeting) = m := by
          cases m
          simp_all
        rw [this]

/-- C2: key_points and action_items round-trip through storage exactly:
after a save (insert, or update of an existing identifier), reloading the
record by its identifier yields the same lists in the same order — in
particular the empty list reloads as the empty list, never a sentinel. -/
theorem c2_list_roundtrip (db : MeetingDB) (m : Meeting) (hwf : DBWf db) :
    (m.id = none →
      (getMeeting (saveMeeting db m).1 db.nextId).map Meeting.key_points =
          some m.key_points ∧
      (getMeeting (saveMeeting db m).1 db.nextId).map Meeting.action_items =
          some m.action_items) ∧
    (∀ k, m.id = some k → k ∈ db.rows.map Row.id →
      (getMeeting (saveMeeting db m).1 k).map Meeting.key_points = some m.key_points ∧
      (getMeeting (saveMeeting db m).1 k).map Meeting.action_items = some m.action_items) := by
  constructor
  · intro hid
    have hfresh : ∀ r ∈ db.rows, r.id ≠ db.nextId := by
      intro r hr
      have := hwf.1 r hr
      omega
    have hget : getMeeting (saveMeeting db m).1 db.nextId =
        some { m with id := some db.nextId } := by
      simp only [saveMeeting, hid]
      unfold getMeeting
      rw [List.find?_append]
      rw [List.find?_eq_none.2 (fun r hr => by simp [hfresh r hr])]
      rw [Option.none_or]
      rw [List.find?_cons_of_pos _ (by simp [rowOfMeeting])]
      exact rowToMeeting_rowOfMeeting db.nextId m
    rw [hget]
    exact ⟨rfl, rfl⟩
  · intro k hid hk
    have hupd : saveMeeting db m =
        (⟨db.nextId, db.rows.map (fun r => if r.id = k then rowOfMeeting k m else r)⟩, m) := by
      simp [saveMeeting, hid]
    rw [hupd]
    unfold getMeeting
    simp only
    rw [find?_update]
    rcases List.mem_map.1 hk with ⟨r0, hr0, hid0⟩
    cases hfind : db.rows.find? (fun r => r.id == k) with
    | none =>
        rw [List.find?_eq_none] at hfind
        exact absurd (by simp [hid0]) (hfind r0 hr0)
    | some r1 =>
        simp only [Option.map_some']
        rw [rowToMeeting_rowOfMeeting]
        exact ⟨rfl, rfl⟩

/-- C6: deleting a previously saved identifier returns the stored
audio_path value (whatever it is, including the empty string), removes
exactly that row (row count drops by one), and a subsequent get of the
identifier returns absent; deleting an unknown identifier returns absent
and leaves the store unchanged.  The model has no filesystem: delete’s
entire effect is on the store. -/
theorem c6_delete_meeting (db : MeetingDB) (i : Nat) (hwf : DBWf db) :
    (∀ r, db.rows.find? (fun r2 => r2.id == i) = some r →
      (deleteMeeting db i).1 = some r.audio_path ∧
      (deleteMeeting db i).2 =
        ⟨db.nextId, db.rows.filter (fun r2 => !(r2.id == i))⟩ ∧
      (deleteMeeting db i).2.rows.length + 1 = db.rows.length ∧
      getMeeting (deleteMeeting db i).2 i = none) ∧
    (db.rows.find? (fun r2 => r2.id == i) = none →
      deleteMeeting db i = (none, db)) := by
  constructor
  · intro r hfind
    have hdel : deleteMeeting db i =
        (some r.audio_path, ⟨db.nextId, db.rows.filter (fun r2 => !(r2.id == i))⟩) := by
      unfold deleteMeeting
      rw [hfind]
    have hmem : r ∈ db.rows := List.mem_of_find?_eq_some hfind
    have hpr := @List.find?_some Row (fun r2 => r2.id == i) r db.rows hfind
    have hri : r.id = i := by simpa using hpr
    have hcount : db.rows.countP (fun r2 => r2.id == i) = 1 := by
      have h1 : List.count i (db.rows.map Row.id) = 1 :=
        List.count_eq_one_of_mem hwf.2 (List.mem_map.2 ⟨r, hmem, hri⟩)
      rw [List.count_eq_countP, List.countP_map] at h1
      convert h1 using 2
    have hlen : (db.rows.filter (fun r2 => !(r2.id == i))).length + 1 =
        db.rows.length := by
      have h2 := List.length_eq_countP_add_countP (fun r2 => r2.id == i) db.rows
      have h3 : db.rows.countP (fun r2 => !(r2.id == i)) =
          (db.rows.filter (fun r2 => !(r2.id == i))).length :=
        List.countP_eq_length_filter _ _
      have h4 : db.rows.countP (fun a => decide ¬(a.id == i) = true) =
          db.rows.countP (fun r2 => !(r2.id == i)) := by
        apply List.countP_congr
        intro r2 _
        simp
      omega
    refine ⟨by rw [hdel], by rw [hdel], by rw [hdel]; exact hlen, ?_⟩
    rw [hdel]
    unfold getMeeting
    simp only
    rw [List.find?_eq_none.2]
    intro r2 hr2
    have := (List.mem_filter.1 hr2).2
    simp at this ⊢
    exact this
  · intro hfind
    unfold deleteMeeting
    rw [hfind]

/-- C9: saving a record whose identifier is set but matches no stored row
takes the UPDATE branch, which modifies zero rows, inserts nothing,
raises no error, and still returns that identifier as if the save had
succeeded — and the identifier still resolves to no record. -/
theorem c9_update_unknown_id (db : MeetingDB) (m : Meeting) (k : Nat) (hid : m.id = some k)
    (habs : k ∉ db.rows.map Row.id) :
    saveMeeting db m = (db, m) ∧ getMeeting db k = none := by
  have hno : ∀ r ∈ db.rows, r.id ≠ k := by
    intro r hr hcon
    exact habs (List.mem_map.2 ⟨r, hr, hcon⟩)
  constructor
  · simp only [saveMeeting, hid]
    have : db.rows.map (fun r => if r.id = k then rowOfMeeting k m else r) = db.rows := by
      rw [show db.rows.map (fun r => if r.id = k then rowOfMeeting k m else r) =
          db.rows.map id from List.map_congr_left (fun r hr => by simp [hno r hr])]
      exact List.map_id db.rows
    rw [this]
  · unfold getMeeting
    rw [List.find?_eq_none.2 (fun r hr => by simp [hno r hr])]

theorem likeMatch_pctNil (s : Str) : likeMatch ['%'] s = true := by
  rw [likeMatch_pct, List.any_eq_true]
  exact ⟨[], (List.mem_tails _ _).2 List.nil_suffix, by rw [likeMatch_nilPat]; rfl⟩

theorem rowMatches_nil (r : Row) : rowMatches [] r = true := by
  have h : likeMatch (likePattern []) r.title = true := by
    unfold likePattern
    rw [List.nil_append, likeMatch_pct, List.any_eq_true]
    exact ⟨r.title, (List.mem_tails _ _).2 (List.suffix_refl _), likeMatch_pctNil r.title⟩
  unfold rowMatches
  rw [h]
  rfl

/-- C10: searching with the empty query returns every stored record
sorted by date descending — `search("")` coincides with `get_all()`,
because the `%%` pattern matches every string. -/
theorem c10_empty_query_matches_all (db : MeetingDB) : searchMeetings db [] = getAllMeetings db := by
  unfold searchMeetings getAllMeetings
  rw [List.filter_eq_self.2 (fun r _ => rowMatches_nil r)]

/-- C7: `_process_audio` never writes the store unless transcription
succeeded with a non-whitespace transcript and summarization succeeded
(when the save step does not run, the database value is unchanged); and a
whitespace-only transcript aborts the run with the "no speech detected"
outcome after the transcription step only — neither the summarizer nor the
store is invoked. -/
theorem c7_no_partial_persistence (durationShort : Option Bool) (transcribed : Option Str)
    (ai : Str → Option AIResult) (audioPath date : Str) (db : MeetingDB) :
    (PipelineStep.saveStep ∉
        (processAudio durationShort transcribed ai audioPath date db).2.2 →
      (processAudio durationShort transcribed ai audioPath date db).1 = db) ∧
    (PipelineStep.saveStep ∈
        (processAudio durationShort transcribed ai audioPath date db).2.2 →
      ∃ t res, transcribed = some t ∧ pyStrip t ≠ [] ∧ ai t = some res) ∧
    (∀ t, durationShort ≠ some true → transcribed = some t → pyStrip t = [] →
      (processAudio durationShort transcribed ai audioPath date db).2.1 =
          ProcessOutcome.noSpeech ∧
      (processAudio durationShort transcribed ai audioPath date db).2.2 =
          [PipelineStep.transcribeStep]) := by
  by_cases hd : durationShort = some true
  · refine ⟨?_, ?_, ?_⟩
    · intro _
      simp [processAudio, hd]
    · intro hmem
      simp [processAudio, hd] at hmem
    · intro t hdn
      exact absurd hd hdn
  · cases transcribed with
    | none =>
        refine ⟨?_, ?_, ?_⟩
        · intro _
          simp [processAudio, hd]
        · intro hmem
          simp [processAudio, hd] at hmem
        · intro t _ ht
          exact absurd ht (by simp)
    | some t0 =>
        by_cases hstrip : pyStrip t0 = []
        · refine ⟨?_, ?_, ?_⟩
          · intro _
            simp [processAudio, hd, hstrip]
          · intro hmem
            simp [processAudio, hd, hstrip] at hmem
          · intro t _ ht hts
            have : t = t0 := by
              injection ht with h
              exact h.symm
            subst this
            simp [processAudio, hd, hstrip]
        · cases hai : ai t0 with
          | none =>
              refine ⟨?_, ?_, ?_⟩
              · intro _
                simp [processAudio, hd, hstrip, hai]
              · intro hmem
                simp [processAudio, hd, hstrip, hai] at hmem
              · intro t _ ht hts
                have : t = t0 := by
                  injection ht with h
                  exact h.symm
                subst this
                exact absurd hts hstrip
          | some res =>
              refine ⟨?_, ?_, ?_⟩
              · intro hmem
                exact absurd (by simp [processAudio, hd, hstrip, hai]) hmem
              · intro _
                exact ⟨t0, res, rfl, hstrip, hai⟩
              · intro t _ ht hts
                have : t = t0 := by
                  injection ht with h
                  exact h.symm
                subst this
                exact absurd hts hstrip

/-- C5 (amended): for every query containing no `LIKE` wildcard (`%`, `_`),
`search_meetings` returns exactly the records whose title, transcript, or
summary contains the query as an ASCII-case-insensitive substring
(OR-combined), sorted by date descending.  (The unamended claim —
case-sensitive substring semantics for every query — is refuted by
`c5_counterexample`.) -/
theorem c5_search_like_semantics (db : MeetingDB) (q : Str)
    (hq : ∀ c ∈ q, ¬c = '%' ∧ ¬c = '_') :
    searchMeetings db q =
      (sortDateDesc (db.rows.filter (fun r =>
        decide (ciContains q r.title) || decide (ciContains q r.transcript) ||
          decide (ciContains q r.summary)))).mapM rowToMeeting ∧
    (sortDateDesc (db.rows.filter (rowMatches q))).Pairwise
      (fun a b => strLe b.date a.date = true) := by
  constructor
  · unfold searchMeetings
    have hfe : db.rows.filter (rowMatches q) =
        db.rows.filter (fun r =>
          decide (ciContains q r.title) || decide (ciContains q r.transcript) ||
            decide (ciContains q r.summary)) := by
      apply List.filter_congr
      intro r _
      unfold rowMatches
      have h1 : likeMatch (likePattern q) r.title = decide (ciContains q r.title) := by
        rw [Bool.eq_iff_iff, decide_eq_true_eq]
        exact likeMatch_pattern_iff q hq r.title
      have h2 : likeMatch (likePattern q) r.transcript =
          decide (ciContains q r.transcript) := by
        rw [Bool.eq_iff_iff, decide_eq_true_eq]
        exact likeMatch_pattern_iff q hq r.transcript
      have h3 : likeMatch (likePattern q) r.summary = decide (ciContains q r.summary) := by
        rw [Bool.eq_iff_iff, decide_eq_true_eq]
        exact likeMatch_pattern_iff q hq r.summary
      rw [h1, h2, h3]
    rw [hfe]
  · exact pairwise_sortDateDesc _

/-- C3: the claim's always-a-sequence-of-strings guarantee is the code's
own stated contract (`_parse_json_list`'s `list[str]` annotation and
docstring, and the spec's fallback guarantee), but the code only falls
back on `json.JSONDecodeError`: a response that decodes as JSON without
being an array of strings is returned as the decoded value itself.  At
the failing inputs, response "{}" yields the empty dict and "[1, 2]" a
list of numbers — neither a sequence of strings — while an undecodable
response still takes the string fallback. -/
theorem c3_decoded_passthrough :
    parseJsonList (("{}").data) = PyVal.pobj [] ∧
    parseJsonList (("[1, 2]").data) =
      PyVal.parr [PyVal.pnum (("1").data), PyVal.pnum (("2").data)] ∧
    pyIsStrList (parseJsonList (("{}").data)) = false ∧
    pyIsStrList (parseJsonList (("[1, 2]").data)) = false ∧
    parseJsonList (("not json").data) =
      PyVal.parr ((fallbackParse (("not json").data)).map PyVal.pstr) ∧
    pyIsStrList (parseJsonList (("not json").data)) = true :=
  ⟨rfl, rfl, rfl, rfl, rfl, rfl⟩


/-- C5 counterexample: searching for "A" returns the record titled "a"
although none of its title, transcript, or summary contains "A" as a
substring — SQLite `LIKE` compares ASCII case-insensitively, so search is
not plain substring matching. -/
theorem c5_counterexample :
    searchMeetings ⟨2, [⟨1, ("a").data, ("d").data, [], [], ("[]").data, ("[]").data, []⟩]⟩
        (("A").data) =
      some [⟨some 1, ("a").data, ("d").data, [], [], [], [], []⟩] ∧
    ¬ ((("A").data : Str) <:+: (("a").data : Str)) ∧
    ¬ ((("A").data : Str) <:+: ([] : Str)) := by
  refine ⟨by decide, by decide, by decide⟩

set_option maxRecDepth 40000 in
theorem c4_witness :
    1600 < (pySplitWs (List.intercalate [' '] (List.replicate 1601 ['w']))).length ∧
    (2 ≤ (chunkTranscript (List.intercalate [' '] (List.replicate 1601 ['w'])) 800).length ∧
      (generateSummary (fun _ _ => []) (List.intercalate [' '] (List.replicate 1601 ['w']))).2.length =
        (chunkTranscript (List.intercalate [' '] (List.replicate 1601 ['w'])) 800).length + 1 ∧
      ((chunkTranscript (List.intercalate [' '] (List.replicate 1601 ['w'])) 800).map pySplitWs).flatten =
        pySplitWs (List.intercalate [' '] (List.replicate 1601 ['w'])) ∧
      (∀ c ∈ chunkTranscript (List.intercalate [' '] (List.replicate 1601 ['w'])) 800,
        (pySplitWs c).length ≤ 800 ∧ pySplitWs c ≠ [])) :=
  ⟨by decide, (c4_generate_summary_chunking (fun _ _ => []) _).2 (by decide)⟩

theorem c1_witness :
    DBWf ⟨1, []⟩ ∧
    ((saveMeeting ⟨1, []⟩
        ⟨none, ("T").data, ("2024").data, ("tr").data, ("su").data,
         [("k").data], [], ("p").data⟩).2.id = some 1 ∧
      (∀ r ∈ (⟨1, []⟩ : MeetingDB).rows, r.id ≠ 1) ∧
      (saveMeeting ⟨1, []⟩
        ⟨none, ("T").data, ("2024").data, ("tr").data, ("su").data,
         [("k").data], [], ("p").data⟩).1.rows.length = 0 + 1 ∧
      getMeeting (saveMeeting ⟨1, []⟩
        ⟨none, ("T").data, ("2024").data, ("tr").data, ("su").data,
         [("k").data], [], ("p").data⟩).1 1 =
        some ⟨some 1, ("T").data, ("2024").data, ("tr").data, ("su").data,
          [("k").data], [], ("p").data⟩) :=
  ⟨by decide,
   (c1_save_insert_update ⟨1, []⟩
     ⟨none, ("T").data, ("2024").data, ("tr").data, ("su").data,
      [("k").data], [], ("p").data⟩ (by decide)).1 rfl⟩

theorem c2_witness :
    DBWf ⟨1, []⟩ ∧
    ((getMeeting (saveMeeting ⟨1, []⟩
        ⟨none, ("T").data, ("d").data, [], [], [], [], []⟩).1 1).map Meeting.key_points =
      some [] ∧
     (getMeeting (saveMeeting ⟨1, []⟩
        ⟨none, ("T").data, ("d").data, [], [], [], [], []⟩).1 1).map Meeting.action_items =
      some []) :=
  ⟨by decide,
   (c2_list_roundtrip ⟨1, []⟩ ⟨none, ("T").data, ("d").data, [], [], [], [], []⟩ (by decide)).1 rfl⟩

theorem c5_witness :
    (∀ c ∈ (("a").data : Str), ¬c = '%' ∧ ¬c = '_') ∧
    (searchMeetings ⟨2, [⟨1, ("Al").data, ("d").data, [], [], ("[]").data, ("[]").data, []⟩]⟩
        (("a").data) =
      (sortDateDesc ((⟨2, [⟨1, ("Al").data, ("d").data, [], [], ("[]").data, ("[]").data, []⟩]⟩ :
          MeetingDB).rows.filter (fun r =>
        decide (ciContains (("a").data) r.title) ||
          decide (ciContains (("a").data) r.transcript) ||
          decide (ciContains (("a").data) r.summary)))).mapM rowToMeeting ∧
     (sortDateDesc ((⟨2, [⟨1, ("Al").data, ("d").data, [], [], ("[]").data, ("[]").data, []⟩]⟩ :
          MeetingDB).rows.filter (rowMatches (("a").data)))).Pairwise
       (fun a b => strLe b.date a.date = true)) :=
  ⟨by decide,
   c5_search_like_semantics ⟨2, [⟨1, ("Al").data, ("d").data, [], [], ("[]").data, ("[]").data, []⟩]⟩
     (("a").data) (by decide)⟩

theorem c6_witness :
    DBWf ⟨2, [⟨1, ("t").data, ("d").data, [], [], ("[]").data, ("[]").data, []⟩]⟩ ∧
    ((⟨2, [⟨1, ("t").data, ("d").data, [], [], ("[]").data, ("[]").data, []⟩]⟩ :
        MeetingDB).rows.find? (fun r2 => r2.id == 1) =
      some ⟨1, ("t").data, ("d").data, [], [], ("[]").data, ("[]").data, []⟩) ∧
    ((deleteMeeting ⟨2, [⟨1, ("t").data, ("d").data, [], [], ("[]").data, ("[]").data, []⟩]⟩ 1).1 =
        some [] ∧
      (deleteMeeting ⟨2, [⟨1, ("t").data, ("d").data, [], [], ("[]").data, ("[]").data, []⟩]⟩ 1).2 =
        ⟨2, ([⟨1, ("t").data, ("d").data, [], [], ("[]").data, ("[]").data, []⟩] :
          List Row).filter (fun r2 => !(r2.id == 1))⟩ ∧
      (deleteMeeting ⟨2, [⟨1, ("t").data, ("d").data, [], [], ("[]").data, ("[]").data, []⟩]⟩ 1).2.rows.length + 1 =
        1 ∧
      getMeeting (deleteMeeting ⟨2, [⟨1, ("t").data, ("d").data, [], [], ("[]").data, ("[]").data, []⟩]⟩ 1).2 1 =
        none) :=
  ⟨by decide, by decide,
   (c6_delete_meeting ⟨2, [⟨1, ("t").data, ("d").data, [], [], ("[]").data, ("[]").data, []⟩]⟩ 1
     (by decide)).1 ⟨1, ("t").data, ("d").data, [], [], ("[]").data, ("[]").data, []⟩ (by decide)⟩

theorem c7_witness :
    (none : Option Bool) ≠ some true ∧ pyStrip (("  ").data) = [] ∧
    ((processAudio none (some (("  ").data)) (fun _ => none) ("p").data ("d").data ⟨1, []⟩).2.1 =
        ProcessOutcome.noSpeech ∧
      (processAudio none (some (("  ").data)) (fun _ => none) ("p").data ("d").data ⟨1, []⟩).2.2 =
        [PipelineStep.transcribeStep]) :=
  ⟨by decide, by decide,
   (c7_no_partial_persistence none (some (("  ").data)) (fun _ => none) ("p").data ("d").data ⟨1, []⟩).2.2
     (("  ").data) (by decide) rfl (by decide)⟩

theorem c8_witness :
    (pySplitWs (("a b").data)).take 800 = (pySplitWs ((" a  b ").data)).take 800 ∧
    ((extractKeyPoints (fun _ _ => []) (("a b").data)).2 =
        (extractKeyPoints (fun _ _ => []) ((" a  b ").data)).2 ∧
      (extractActionItems (fun _ _ => []) (("a b").data)).2 =
        (extractActionItems (fun _ _ => []) ((" a  b ").data)).2 ∧
      (generateTitle (fun _ _ => []) (("a b").data)).2 =
        (generateTitle (fun _ _ => []) ((" a  b ").data)).2 ∧
      (answerQuestion (fun _ _ => []) (("a b").data) (("q").data)).2 =
        (answerQuestion (fun _ _ => []) ((" a  b ").data) (("q").data)).2 ∧
      (extractKeyPoints (fun _ _ => []) (("a b").data)).2.user =
        ("Meeting transcript:\n\n").data ++
          List.intercalate [' '] ((pySplitWs (("a b").data)).take 800)) :=
  ⟨by decide,
   c8_truncate_800 (fun _ _ => []) (("a b").data) ((" a  b ").data) (("q").data) (by decide)⟩

theorem c9_witness :
    (⟨some 5, ("T").data, ("d").data, [], [], [], [], []⟩ : Meeting).id = some 5 ∧
    5 ∉ (⟨1, []⟩ : MeetingDB).rows.map Row.id ∧
    (saveMeeting ⟨1, []⟩ ⟨some 5, ("T").data, ("d").data, [], [], [], [], []⟩ =
        (⟨1, []⟩, ⟨some 5, ("T").data, ("d").data, [], [], [], [], []⟩) ∧
      getMeeting ⟨1, []⟩ 5 = none) :=
  ⟨rfl, by decide,
   c9_update_unknown_id ⟨1, []⟩ ⟨some 5, ("T").data, ("d").data, [], [], [], [], []⟩ 5 rfl (by decide)⟩
